import Mathlib

/-!
Verification development for the BizExpense tracker core algorithms.

This file gives a shallow embedding, in Lean 4, of the deterministic core
of the application: the column-mapper amount normalization, the duplicate
detector, the auto-categorization rule engine, the fuzzy category resolver
(Levenshtein based), the reconciliation window matcher, and the
accept-match operation.  Each definition is translated directly from the
corresponding TypeScript source function; JavaScript numbers are modelled
as rationals, a possibly-NaN number as an optional rational, JavaScript
string falsiness of an optional string field as the test against the empty
string, and the result of the built-in parseFloat as an optional rational
(none standing for NaN).
-/

namespace BizExpense

/-- Transaction type enumeration from types.ts. -/
inductive TxType where
  | INCOME
  | EXPENSE
  | TRANSFER
  | LOAN
deriving DecidableEq, Repr

/-- Subcategory record from types.ts. -/
structure SubCategory where
  id : String
  name : String
deriving DecidableEq, Repr

/-- Category record from types.ts (the optional display color is carried
but never read by the embedded operations). -/
structure Category where
  id : String
  name : String
  type : TxType
  subcategories : List SubCategory
  color : Option String
deriving DecidableEq, Repr

/-- Transaction record from types.ts, restricted to the fields that the
embedded operations read or write.  Optional string fields use none for
the JavaScript undefined. -/
structure Transaction where
  id : String
  date : String
  description : String
  amount : ℚ
  type : TxType
  categoryId : Option String
  subcategoryId : Option String
  account : Option String
  comments : Option String
  importedCategory : Option String
deriving DecidableEq, Repr

/-- Builds a fresh transaction with all optional fields absent. -/
def mkTxn (id date description : String) (amount : ℚ) (type : TxType) : Transaction :=
  ⟨id, date, description, amount, type, none, none, none, none, none⟩

/-- JavaScript truthiness of an optional string: defined and nonempty. -/
def strTruthy (o : Option String) : Bool :=
  o.getD "" != ""

/-- JavaScript toLowerCase, character by character. -/
def jsToLower (s : String) : String :=
  ⟨s.data.map Char.toLower⟩

/-- JavaScript String.includes: some suffix of the haystack starts with
the needle. -/
def jsIncludes (s t : String) : Bool :=
  s.data.tails.any fun suf => t.data.isPrefixOf suf

/-- JavaScript String.startsWith. -/
def jsStartsWith (s t : String) : Bool :=
  t.data.isPrefixOf s.data

/-- JavaScript String.endsWith. -/
def jsEndsWith (s t : String) : Bool :=
  t.data.isSuffixOf s.data

/-- JavaScript Math.abs on a rational. -/
def jsAbsQ (q : ℚ) : ℚ :=
  if q < 0 then -q else q

/-- The branchy Math.abs agrees with the mathematical absolute value. -/
theorem jsAbsQ_eq_abs (q : ℚ) : jsAbsQ q = |q| := by
  unfold jsAbsQ
  by_cases h : q < 0
  · simp [h, abs_of_neg h]
  · simp [h, abs_of_nonneg (le_of_not_lt h)]

/-- Numeric value of a digit list, most significant first. -/
def digitsVal (l : List Char) : ℕ :=
  l.foldl (fun a c => a * 10 + (c.toNat - 48)) 0

/-- JavaScript parseFloat, modelled on the fragment of its grammar
reachable in this program: optional leading whitespace, an optional sign,
integer digits, an optional fraction after a dot, and an optional decimal
exponent; parsing stops at the first character that does not fit, and the
result is none (NaN) when no digit was consumed.  The Infinity literal is
not modelled: every call site either lowercases its argument first, which
makes parseFloat reject the word, or strips letters beforehand. -/
def parseFloatJs (s : String) : Option ℚ :=
  let l0 := s.data.dropWhile fun c => c.isWhitespace
  let (neg, l1) : Bool × List Char :=
    match l0 with
    | '-' :: r => (true, r)
    | '+' :: r => (false, r)
    | r => (false, r)
  let intPart := l1.takeWhile Char.isDigit
  let l2 := l1.drop intPart.length
  let fracPart :=
    match l2 with
    | '.' :: r => r.takeWhile Char.isDigit
    | _ => []
  if intPart.isEmpty && fracPart.isEmpty then none
  else
    let l3 :=
      match l2 with
      | '.' :: r => r.drop fracPart.length
      | _ => l2
    let den : ℕ := 10 ^ fracPart.length
    let mag : ℕ := digitsVal intPart * den + digitsVal fracPart
    let num : ℤ := if neg then -(mag : ℤ) else (mag : ℤ)
    let expo : ℤ :=
      match l3 with
      | 'e' :: r | 'E' :: r =>
        let (esign, r1) : ℤ × List Char :=
          match r with
          | '-' :: r2 => (-1, r2)
          | '+' :: r2 => (1, r2)
          | r2 => (1, r2)
        let expDigits := r1.takeWhile Char.isDigit
        if expDigits.isEmpty then 0 else esign * (digitsVal expDigits : ℤ)
      | _ => 0
    if 0 ≤ expo then some (mkRat (num * (10 : ℤ) ^ expo.toNat) den)
    else some (mkRat num (den * 10 ^ (-expo).toNat))

/-- The amount-cell character filter: replace all characters other than
digits, dot and minus by nothing. -/
def stripAmount (s : String) : String :=
  ⟨s.data.filter fun c => c.isDigit || c == '.' || c == '-'⟩

/-- Value of an amount cell as read by handleProcessImport: a missing
cell, or a cell whose stripped text is empty, falls back to the literal
string 0 before parsing.  A none result stands for NaN. -/
def amountCellValue (cell : Option String) : Option ℚ :=
  let str :=
    match cell with
    | none => "0"
    | some s =>
      let st := stripAmount s
      if st = "" then "0" else st
  parseFloatJs str

/-- JavaScript comparison number > 0 where the number may be NaN. -/
def jsPos (n : Option ℚ) : Bool :=
  match n with
  | none => false
  | some v => decide (0 < v)

/-- JavaScript comparison number < 0 where the number may be NaN. -/
def jsNeg (n : Option ℚ) : Bool :=
  match n with
  | none => false
  | some v => decide (v < 0)

/-- Math.abs lifted to a possibly-NaN number. -/
def jsAbsN (n : Option ℚ) : Option ℚ :=
  n.map jsAbsQ

/-- Amount and type normalization of one import row, translated from the
dual-convention block of handleProcessImport (TransactionManager.tsx and
CategoryManager.tsx): in split mode a credit value strictly greater than
zero yields that amount as INCOME and anything else yields the absolute
debit value as EXPENSE; outside split mode a negative parsed amount yields
its absolute value as EXPENSE and anything else yields the parsed amount
as INCOME. -/
def importAmountType (useSplitMode : Bool)
    (debitCell creditCell amountCell : Option String) : Option ℚ × TxType :=
  if useSplitMode then
    let debit := amountCellValue debitCell
    let credit := amountCellValue creditCell
    if jsPos credit then (credit, TxType.INCOME)
    else (jsAbsN debit, TxType.EXPENSE)
  else
    let amount := amountCellValue amountCell
    if jsNeg amount then (jsAbsN amount, TxType.EXPENSE)
    else (amount, TxType.INCOME)

/-- Rule condition field from types.ts. -/
inductive RuleField where
  | description
  | amount
  | account
deriving DecidableEq, Repr

/-- Rule condition operator from types.ts. -/
inductive RuleOperator where
  | contains
  | equals
  | starts_with
  | ends_with
  | greater
  | less
deriving DecidableEq, Repr

/-- Rule match logic from types.ts. -/
inductive RuleLogic where
  | AND
  | OR
deriving DecidableEq, Repr

/-- Rule condition record from types.ts. -/
structure RuleCondition where
  id : String
  field : RuleField
  operator : RuleOperator
  value : String
deriving DecidableEq, Repr

/-- Auto-categorization rule record from types.ts. -/
structure AutoCategoryRule where
  id : String
  name : String
  matchLogic : RuleLogic
  conditions : List RuleCondition
  targetCategoryId : String
  targetSubcategoryId : Option String
  isActive : Bool
deriving DecidableEq, Repr

/-- Evaluation of one rule condition against a transaction, translated
from the condition check inside applyRules (TransactionManager.tsx and
CategoryManager.tsx).  String fields compare the lowercased value against
the lowercased condition text; the amount field parses the condition text
as a number (the source also round-trips the transaction amount through
toString and parseFloat, which is the identity on our rational model) and
compares with a 0.01 tolerance for equals; an operator that does not fit
the field falls through to false. -/
def evalCondition (t : Transaction) (c : RuleCondition) : Bool :=
  let target := jsToLower c.value
  match c.field with
  | RuleField.amount =>
    match parseFloatJs target with
    | none => false
    | some numTarget =>
      match c.operator with
      | RuleOperator.equals => decide (jsAbsQ (t.amount - numTarget) < mkRat 1 100)
      | RuleOperator.greater => decide (numTarget < t.amount)
      | RuleOperator.less => decide (t.amount < numTarget)
      | _ => false
  | RuleField.description =>
    let val := jsToLower t.description
    match c.operator with
    | RuleOperator.contains => jsIncludes val target
    | RuleOperator.equals => val == target
    | RuleOperator.starts_with => jsStartsWith val target
    | RuleOperator.ends_with => jsEndsWith val target
    | _ => false
  | RuleField.account =>
    let val := jsToLower (t.account.getD "")
    match c.operator with
    | RuleOperator.contains => jsIncludes val target
    | RuleOperator.equals => val == target
    | RuleOperator.starts_with => jsStartsWith val target
    | RuleOperator.ends_with => jsEndsWith val target
    | _ => false

/-- Whether a rule matches a transaction: map the conditions to booleans
and combine with every for AND and some for OR, exactly as applyRules
does.  On an empty condition list this gives true under AND and false
under OR, reproducing the vacuous-truth behavior of the source. -/
def ruleMatches (t : Transaction) (r : AutoCategoryRule) : Bool :=
  let ms := r.conditions.map (evalCondition t)
  match r.matchLogic with
  | RuleLogic.AND => ms.all fun b => b
  | RuleLogic.OR => ms.any fun b => b

/-- Per-transaction body of applyRules: skip transactions whose
categoryId is truthy, otherwise take the first active rule that matches
and assign its targets, falling back to the transaction type when the
target category id resolves to no category. -/
def applyRulesTxn (categories : List Category) (rules : List AutoCategoryRule)
    (t : Transaction) : Transaction :=
  if strTruthy t.categoryId then t
  else
    match (rules.filter fun r => r.isActive).find? (fun r => ruleMatches t r) with
    | none => t
    | some rule =>
      let newType :=
        match categories.find? (fun c => c.id == rule.targetCategoryId) with
        | some cat => cat.type
        | none => t.type
      { t with categoryId := some rule.targetCategoryId,
               subcategoryId := rule.targetSubcategoryId,
               type := newType }

/-- The applyRules pass over the whole transaction store
(TransactionManager.tsx lines 529-571, identical in CategoryManager.tsx):
an empty rule list returns the store untouched, otherwise every
transaction goes through the per-transaction body. -/
def applyRules (categories : List Category) (rules : List AutoCategoryRule)
    (transactions : List Transaction) : List Transaction :=
  if rules.isEmpty then transactions
  else transactions.map (applyRulesTxn categories rules)

/-- Date-only part of an ISO date string: everything before the first T,
as computed by date.split with separator T, first component. -/
def dateOnly (d : String) : String :=
  ⟨d.data.takeWhile fun c => c != 'T'⟩

/-- Duplicate test of one candidate against the existing store, from
performDuplicateCheck: some existing transaction has the same date-only
string, an amount within 0.01, and an identical description. -/
def isDuplicate (existing : List Transaction) (t : Transaction) : Bool :=
  existing.any fun ex =>
    dateOnly ex.date == dateOnly t.date
      && decide (jsAbsQ (ex.amount - t.amount) < mkRat 1 100)
      && ex.description == t.description

/-- The duplicate detector of TransactionManager.tsx: partition the
candidate batch, in order, into the clean list and the duplicates list
according to the duplicate test against the existing store. -/
def performDuplicateCheck (existing txns : List Transaction) :
    List Transaction × List Transaction :=
  (txns.filter fun t => !(isDuplicate existing t),
   txns.filter fun t => isDuplicate existing t)

/-- Lookup in a JavaScript record of strings, modelled as an association
list: the first binding for the key, if any. -/
def lookupStr (m : List (String × String)) (k : String) : Option String :=
  (m.find? fun p => p.1 == k).map fun p => p.2

/-- The import-label check of handleProcessImport (CategoryManager.tsx
lines 586-597): a free-text label is considered known when some category
name or some subcategory name equals it case-insensitively; only unknown
labels are surfaced to the user for mapping. -/
def importLabelResolved (categories : List Category) (label : String) : Bool :=
  categories.any fun c =>
    jsToLower c.name == jsToLower label
      || c.subcategories.any fun s => jsToLower s.name == jsToLower label

/-- Category resolution applied to one import candidate inside
performDuplicateCheck (CategoryManager.tsx lines 637-676).  When the
imported label is truthy: a user mapping to an id other than the NEW
marker is resolved first as a category id and then, scanning every
category, as a subcategory id (the last hit of the scan wins, as in the
source forEach); with no usable mapping the label is compared
case-insensitively against category names only.  The computed category
id, subcategory id and type overwrite those of the candidate. -/
def resolveImportCategory (catMap : List (String × String))
    (updatedCategories : List Category) (t : Transaction) : Transaction :=
  let ic := t.importedCategory.getD ""
  let exactBranch : Option String × Option String × TxType :=
    match updatedCategories.find? (fun c => jsToLower c.name == jsToLower ic) with
    | some cat => (some cat.id, none, cat.type)
    | none => (none, none, t.type)
  let res : Option String × Option String × TxType :=
    if ic != "" then
      match lookupStr catMap ic with
      | some mapId =>
        if mapId != "" && mapId != "NEW" then
          match updatedCategories.find? (fun c => c.id == mapId) with
          | some cat => (some cat.id, none, cat.type)
          | none =>
            match updatedCategories.foldl
                (fun acc c =>
                  match c.subcategories.find? (fun s => s.id == mapId) with
                  | some sub => some (c.id, sub.id, c.type)
                  | none => acc)
                none with
            | some (cid, sid, ty) => (some cid, some sid, ty)
            | none => (none, none, t.type)
        else exactBranch
      | none => exactBranch
    else (none, none, t.type)
  { t with categoryId := res.1, subcategoryId := res.2.1, type := res.2.2 }

/-- The duplicate detector of CategoryManager.tsx (lines 637-694): each
candidate is first rewritten by the category resolution above, the
duplicate test runs on the original candidate fields, and the rewritten
candidate is pushed into the clean or the duplicates list. -/
def performDuplicateCheckCM (existing : List Transaction)
    (catMap : List (String × String)) (updatedCategories : List Category)
    (txns : List Transaction) : List Transaction × List Transaction :=
  ((txns.filter fun t => !(isDuplicate existing t)).map
      (resolveImportCategory catMap updatedCategories),
   (txns.filter fun t => isDuplicate existing t).map
      (resolveImportCategory catMap updatedCategories))

/-- Levenshtein distance inner recurrence: one new cell from the cell
above, the cell to the left and the diagonal cell, walking the first
string and the previous row together. -/
def levRowGo (tc : Char) : List Char → List ℕ → ℕ → ℕ → List ℕ
  | sc :: scs, above :: aboves, diag, left =>
    let cur := Nat.min (above + 1) (Nat.min (left + 1) (diag + (if sc == tc then 0 else 1)))
    cur :: levRowGo tc scs aboves above cur
  | _, _, _, _ => []

/-- Row i of the Levenshtein table from row i-1: the border cell i
followed by the recurrence along the first string. -/
def levNextRow (s : List Char) (tc : Char) (i : ℕ) (prev : List ℕ) : List ℕ :=
  match prev with
  | [] => [i]
  | p0 :: rest => i :: levRowGo tc s rest p0 i

/-- The levenshteinDistance function of CategoryManager.tsx: an empty
argument short-circuits to the length of the other; otherwise the classic
dynamic program builds one row per character of the second string over
the base row 0..length of the first string, and the answer is the last
cell of the last row. -/
def levenshteinDistance (s t : String) : ℕ :=
  if s.data.isEmpty then t.data.length
  else if t.data.isEmpty then s.data.length
  else
    let row0 := List.range (s.data.length + 1)
    (t.data.foldl
      (fun (st : ℕ × List ℕ) tc => (st.1 + 1, levNextRow s.data tc (st.1 + 1) st.2))
      (0, row0)).2.getLastD 0

/-- The id and name pairs scanned by getClosestMatch: every category
followed by its subcategories, in catalog order. -/
def scanEntries (categories : List Category) : List (String × String) :=
  categories.flatMap fun c => (c.id, c.name) :: c.subcategories.map fun s => (s.id, s.name)

/-- The update guard of getClosestMatch: the new distance must be below
the running lowest (none standing for the initial Infinity) and within
the fixed tolerance 3. -/
def gcmOk (lowest : Option ℕ) (dist : ℕ) : Bool :=
  (match lowest with
   | none => true
   | some l => decide (dist < l)) && decide (dist ≤ 3)

/-- The distance computed by the compare closure of getClosestMatch: the
Levenshtein distance between the lowercased term and the lowercased entry
name. -/
def gcmDist (termLower : String) (e : String × String) : ℕ :=
  levenshteinDistance termLower (jsToLower e.2)

/-- The scanning loop of getClosestMatch over the id and name entries,
carrying the best id so far and the lowest distance so far. -/
def gcmLoop (termLower : String) :
    List (String × String) → Option String → Option ℕ → Option String
  | [], best, _ => best
  | e :: es, best, lowest =>
    let dist := gcmDist termLower e
    if gcmOk lowest dist then gcmLoop termLower es (some e.1) (some dist)
    else gcmLoop termLower es best lowest

/-- The getClosestMatch function of CategoryManager.tsx (lines 218-240):
scan every category name and subcategory name, keep the id of the entry
with the strictly lowest Levenshtein distance to the lowercased term
among those within tolerance 3, and return it (or none). -/
def getClosestMatch (term : String) (categories : List Category) : Option String :=
  gcmLoop (jsToLower term) (scanEntries categories) none none

/-- Transaction as read by the reconciliation manager: the date string
already turned into a time value.  Dates are modelled at day granularity:
an integer counts days, so that the setDate shifts of the source move the
value by exactly 5. -/
structure ReconTxn where
  id : String
  date : ℤ
  amount : ℚ
deriving DecidableEq, Repr

/-- Reconciliation order record from types.ts, with the date modelled as
a day index like the transaction date. -/
structure ReconOrder where
  id : String
  date : ℤ
  description : String
  amount : ℚ
  matchedTransactionId : Option String
deriving DecidableEq, Repr

/-- The deterministic candidate search getSuggestedMatches of the
reconciliation manager (part_007 lines 63-74): keep the transactions
whose amount is strictly equal to the order amount and whose date lies
between the order date minus 5 days and the order date plus 5 days,
inclusive on both ends. -/
def getSuggestedMatches (transactions : List ReconTxn) (order : ReconOrder) :
    List ReconTxn :=
  let minDate := order.date - 5
  let maxDate := order.date + 5
  transactions.filter fun t =>
    t.amount == order.amount && decide (minDate ≤ t.date) && decide (t.date ≤ maxDate)

/-- Match suggestion type tag from types.ts. -/
inductive MatchType where
  | EXACT
  | BUNDLE
  | SEMANTIC
  | DISCREPANCY
deriving DecidableEq, Repr

/-- Reconciliation match suggestion record from types.ts. -/
structure MatchSuggestion where
  type : MatchType
  transactionId : String
  orderIds : List String
  confidence : ℚ
  reason : String
  discrepancyAmount : Option ℚ
deriving DecidableEq, Repr

/-- The acceptMatch operation of the assisted reconciliation manager
(part_008 lines 127-151): append an audit note to the matched
transaction, then stamp every order whose id occurs in the suggestion
with the suggestion transaction id.  Only the id and comments fields of a
transaction are read or written, so the main Transaction structure is
reused here with its date kept as a string. -/
def acceptMatch (m : MatchSuggestion) (transactions : List Transaction)
    (orders : List ReconOrder) : List Transaction × List ReconOrder :=
  let orderDescriptions :=
    String.intercalate ", "
      ((orders.filter fun o => m.orderIds.contains o.id).map fun o => o.description)
  let newTxns := transactions.map fun t =>
    if t.id == m.transactionId then
      let currentNotes := t.comments.getD ""
      let matchTypeLabel :=
        if m.type == MatchType.BUNDLE then "Bundled Orders" else "Matched Order"
      let newNote := "[AI " ++ matchTypeLabel ++ "]: " ++ orderDescriptions
      let finalNotes :=
        if currentNotes != "" then currentNotes ++ " | " ++ newNote else newNote
      { t with comments := some finalNotes }
    else t
  let newOrders := orders.map fun o =>
    if m.orderIds.contains o.id then { o with matchedTransactionId := some m.transactionId }
    else o
  (newTxns, newOrders)

/-- Bridge from the kernel-friendly mkRat tolerance constant to the
fractional literal used in specification statements. -/
theorem mkRat_one_hundredth : (mkRat 1 100 : ℚ) = 1 / 100 := by
  rw [Rat.mkRat_eq_divInt, Rat.divInt_eq_div]
  norm_num

/-- C1: the specification mandates that a rule with an empty condition
list never matches any transaction, under AND as well as OR match logic.
The code violates this for AND: mapping zero conditions and folding with
every yields vacuous truth, so a single active empty-condition AND rule
force-categorizes an uncategorized transaction, while the same rule under
OR leaves it unchanged.  This theorem evaluates the engine at that
failing input. -/
theorem applyRules_emptyConditions_and_forces_categorization :
    applyRules [⟨"c1", "Food", TxType.EXPENSE, [], none⟩]
        [⟨"r1", "Empty AND", RuleLogic.AND, [], "c1", none, true⟩]
        [mkTxn "t1" "2024-01-01" "Coffee" 5 TxType.INCOME]
      = [{ mkTxn "t1" "2024-01-01" "Coffee" 5 TxType.INCOME with
            categoryId := some "c1", type := TxType.EXPENSE }]
  ∧ ({ mkTxn "t1" "2024-01-01" "Coffee" 5 TxType.INCOME with
        categoryId := some "c1", type := TxType.EXPENSE } : Transaction)
      ≠ mkTxn "t1" "2024-01-01" "Coffee" 5 TxType.INCOME
  ∧ applyRules [⟨"c1", "Food", TxType.EXPENSE, [], none⟩]
        [⟨"r2", "Empty OR", RuleLogic.OR, [], "c1", none, true⟩]
        [mkTxn "t1" "2024-01-01" "Coffee" 5 TxType.INCOME]
      = [mkTxn "t1" "2024-01-01" "Coffee" 5 TxType.INCOME] := by
  refine ⟨by decide, by decide, by decide⟩

/-- C3 counterexample: the claim reads a nonzero credit as INCOME, but
the code tests credit strictly greater than zero.  A credit cell parsing
to the nonzero value minus five is routed to the debit branch: the result
is the absolute debit as EXPENSE, not minus five as INCOME. -/
theorem importAmountType_nonzero_credit_counterexample :
    amountCellValue (some "-5") = some (-5)
  ∧ (-5 : ℚ) ≠ 0
  ∧ importAmountType true (some "10") (some "-5") none = (some 10, TxType.EXPENSE)
  ∧ importAmountType true (some "10") (some "-5") none ≠ (some (-5 : ℚ), TxType.INCOME) := by
  refine ⟨by decide, by decide, by decide, by decide⟩

/-- C3 (amended): with splitMode on, a credit cell parsing to a strictly
positive value yields INCOME with that credit amount and any other credit
(non-positive or NaN) yields EXPENSE with the absolute debit value; with
splitMode off, a negative parsed amount yields EXPENSE with its absolute
value and a non-negative parsed amount yields INCOME. -/
theorem importAmountType_spec (dc cc ac : Option String) :
    (∀ q : ℚ, amountCellValue cc = some q → 0 < q →
      importAmountType true dc cc ac = (some q, TxType.INCOME))
  ∧ (∀ q : ℚ, amountCellValue cc = some q → q ≤ 0 →
      importAmountType true dc cc ac = (jsAbsN (amountCellValue dc), TxType.EXPENSE))
  ∧ (amountCellValue cc = none →
      importAmountType true dc cc ac = (jsAbsN (amountCellValue dc), TxType.EXPENSE))
  ∧ (∀ q : ℚ, amountCellValue ac = some q → q < 0 →
      importAmountType false dc cc ac = (some |q|, TxType.EXPENSE))
  ∧ (∀ q : ℚ, amountCellValue ac = some q → 0 ≤ q →
      importAmountType false dc cc ac = (some q, TxType.INCOME)) := by
  refine ⟨?_, ?_, ?_, ?_, ?_⟩
  · intro q hq hpos
    simp [importAmountType, hq, jsPos, hpos]
  · intro q hq hnonpos
    simp [importAmountType, hq, jsPos, not_lt_of_le hnonpos]
  · intro hq
    simp [importAmountType, hq, jsPos]
  · intro q hq hneg
    simp [importAmountType, hq, jsNeg, hneg, jsAbsN, jsAbsQ_eq_abs]
  · intro q hq hnonneg
    simp [importAmountType, hq, jsNeg, not_lt_of_le hnonneg]

/-- C3 witness: the split-mode vectors of the specification, a debit-only
row giving EXPENSE 50 and a credit-only row giving INCOME 50, through the
amended theorem. -/
theorem importAmountType_spec_witness :
    importAmountType true (some "") (some "50.00") none = (some 50, TxType.INCOME)
  ∧ importAmountType true (some "50.00") (some "") none = (some 50, TxType.EXPENSE) := by
  constructor
  · exact (importAmountType_spec (some "") (some "50.00") none).1 50 (by decide) (by norm_num)
  · have h := (importAmountType_spec (some "50.00") (some "") none).2.1 0 (by decide) le_rfl
    rw [h]
    decide

/-- C2 counterexample: the claim admits candidates whose amount differs
from the order amount by less than 0.01, but the code requires strict
equality.  A transaction of amount 100.005 on the very date of a
100-amount order is within tolerance and inside the window, yet the
candidate list is empty. -/
theorem getSuggestedMatches_tolerance_counterexample :
    |(mkRat 100005 1000 : ℚ) - 100| < 1 / 100
  ∧ (mkRat 100005 1000 : ℚ) ≠ 100
  ∧ getSuggestedMatches [⟨"t1", 0, mkRat 100005 1000⟩]
        ⟨"o1", 0, "Order one", 100, none⟩ = [] := by
  refine ⟨?_, by decide, by decide⟩
  rw [Rat.mkRat_eq_divInt, Rat.divInt_eq_div]
  rw [abs_lt]
  constructor <;> norm_num

/-- C2 (amended): the candidate search returns exactly the transactions
whose amount is strictly equal to the order amount and whose date lies in
the inclusive window from five days before to five days after the order
date; in particular, for equal amounts, a transaction dated five days
after the order is a candidate and one dated six days after is not. -/
theorem getSuggestedMatches_window (txns : List ReconTxn) (o : ReconOrder) :
    (∀ t : ReconTxn, t ∈ getSuggestedMatches txns o ↔
      t ∈ txns ∧ t.amount = o.amount ∧ o.date - 5 ≤ t.date ∧ t.date ≤ o.date + 5)
  ∧ getSuggestedMatches [⟨"t5", 5, 100⟩] ⟨"o0", 0, "Day zero order", 100, none⟩
      = [⟨"t5", 5, 100⟩]
  ∧ getSuggestedMatches [⟨"t6", 6, 100⟩] ⟨"o0", 0, "Day zero order", 100, none⟩
      = [] := by
  refine ⟨?_, by decide, by decide⟩
  intro t
  simp [getSuggestedMatches, List.mem_filter, Bool.and_eq_true, and_assoc]

/-- C8: the specification requires accept-time validation, rejecting or
ignoring a suggestion that references an already-matched order.  The code
performs no such check: accepting a suggestion whose order id list names
an order already stamped with transaction t1 silently overwrites the
stamp with the suggestion transaction t2.  This theorem evaluates
acceptMatch at that failing input. -/
theorem acceptMatch_restamps_matched_order :
    (⟨"o1", 0, "Order one", 20, some "t1"⟩ : ReconOrder).matchedTransactionId = some "t1"
  ∧ (acceptMatch ⟨MatchType.EXACT, "t2", ["o1"], 1, "ai reason", none⟩ []
        [⟨"o1", 0, "Order one", 20, some "t1"⟩]).2
      = [⟨"o1", 0, "Order one", 20, some "t2"⟩]
  ∧ (some "t2" : Option String) ≠ some "t1" := by
  refine ⟨by decide, by decide, by decide⟩

/-- C6: the import pipeline accepts a label equal to a subcategory name
as known (so the user is never asked to map it), but the resolution step
inside performDuplicateCheck scans category names only, so the resulting
transaction carries no category id and no subcategory id instead of the
subcategory and its parent.  This theorem evaluates the pipeline at that
failing input: catalog Food with subcategory Groceries, imported label
Groceries, empty user mapping. -/
theorem importSubcategoryLabel_lost :
    importLabelResolved [⟨"c1", "Food", TxType.EXPENSE, [⟨"s1", "Groceries"⟩], none⟩]
        "Groceries" = true
  ∧ ((performDuplicateCheckCM [] [] [⟨"c1", "Food", TxType.EXPENSE, [⟨"s1", "Groceries"⟩], none⟩]
        [{ mkTxn "t1" "2024-01-05" "GROCERY STORE" 30 TxType.EXPENSE with
            importedCategory := some "Groceries" }]).1.map
          fun x => (x.categoryId, x.subcategoryId))
      = [((none : Option String), (none : Option String))] := by
  refine ⟨by decide, by decide⟩

/-- C4: a candidate lands in the duplicates list precisely when some
stored transaction shares its date-only string, an amount within 0.01,
and an identical description; it lands in the clean list precisely when
no stored transaction does; and every member of the batch lands in
exactly one of the two lists. -/
theorem performDuplicateCheck_partition (store cands : List Transaction) (t : Transaction) :
    (t ∈ (performDuplicateCheck store cands).2 ↔
      t ∈ cands ∧ ∃ ex ∈ store, dateOnly ex.date = dateOnly t.date
        ∧ |ex.amount - t.amount| < 1 / 100 ∧ ex.description = t.description)
  ∧ (t ∈ (performDuplicateCheck store cands).1 ↔
      t ∈ cands ∧ ¬ ∃ ex ∈ store, dateOnly ex.date = dateOnly t.date
        ∧ |ex.amount - t.amount| < 1 / 100 ∧ ex.description = t.description)
  ∧ (t ∈ cands →
      (t ∈ (performDuplicateCheck store cands).1
          ∧ t ∉ (performDuplicateCheck store cands).2)
      ∨ (t ∈ (performDuplicateCheck store cands).2
          ∧ t ∉ (performDuplicateCheck store cands).1)) := by
  have hdup : ∀ u : Transaction, isDuplicate store u = true ↔
      ∃ ex ∈ store, dateOnly ex.date = dateOnly u.date
        ∧ |ex.amount - u.amount| < 1 / 100 ∧ ex.description = u.description := by
    intro u
    simp [isDuplicate, List.any_eq_true, Bool.and_eq_true, jsAbsQ_eq_abs,
      mkRat_one_hundredth, and_assoc]
  have h2 : t ∈ (performDuplicateCheck store cands).2 ↔
      t ∈ cands ∧ ∃ ex ∈ store, dateOnly ex.date = dateOnly t.date
        ∧ |ex.amount - t.amount| < 1 / 100 ∧ ex.description = t.description := by
    rw [← hdup t]
    simp [performDuplicateCheck, List.mem_filter]
  have h1 : t ∈ (performDuplicateCheck store cands).1 ↔
      t ∈ cands ∧ ¬ ∃ ex ∈ store, dateOnly ex.date = dateOnly t.date
        ∧ |ex.amount - t.amount| < 1 / 100 ∧ ex.description = t.description := by
    rw [← hdup t]
    simp [performDuplicateCheck, List.mem_filter]
  refine ⟨h2, h1, ?_⟩
  intro hc
  by_cases hd : isDuplicate store t = true
  · right
    refine ⟨h2.mpr ⟨hc, (hdup t).mp hd⟩, ?_⟩
    rw [h1]
    exact fun h => h.2 ((hdup t).mp hd)
  · left
    refine ⟨h1.mpr ⟨hc, fun h => hd ((hdup t).mpr h)⟩, ?_⟩
    rw [h2]
    exact fun h => hd ((hdup t).mpr h.2)

/-- C4 witness: a stored morning transaction and a candidate with the
same calendar date, amount and description exercise the partition
statement at a concrete batch. -/
theorem performDuplicateCheck_partition_witness :
    (mkTxn "c" "2024-01-01" "ACME" 10 TxType.EXPENSE
        ∈ (performDuplicateCheck [mkTxn "e" "2024-01-01T10:00" "ACME" 10 TxType.EXPENSE]
            [mkTxn "c" "2024-01-01" "ACME" 10 TxType.EXPENSE]).1
      ∧ mkTxn "c" "2024-01-01" "ACME" 10 TxType.EXPENSE
          ∉ (performDuplicateCheck [mkTxn "e" "2024-01-01T10:00" "ACME" 10 TxType.EXPENSE]
              [mkTxn "c" "2024-01-01" "ACME" 10 TxType.EXPENSE]).2)
    ∨ (mkTxn "c" "2024-01-01" "ACME" 10 TxType.EXPENSE
        ∈ (performDuplicateCheck [mkTxn "e" "2024-01-01T10:00" "ACME" 10 TxType.EXPENSE]
            [mkTxn "c" "2024-01-01" "ACME" 10 TxType.EXPENSE]).2
      ∧ mkTxn "c" "2024-01-01" "ACME" 10 TxType.EXPENSE
          ∉ (performDuplicateCheck [mkTxn "e" "2024-01-01T10:00" "ACME" 10 TxType.EXPENSE]
              [mkTxn "c" "2024-01-01" "ACME" 10 TxType.EXPENSE]).1) :=
  (performDuplicateCheck_partition
    [mkTxn "e" "2024-01-01T10:00" "ACME" 10 TxType.EXPENSE]
    [mkTxn "c" "2024-01-01" "ACME" 10 TxType.EXPENSE]
    (mkTxn "c" "2024-01-01" "ACME" 10 TxType.EXPENSE)).2.2 (by decide)

/-- C10: the duplicate test of a candidate reads only the existing store,
never the other members of the batch: two candidates sharing date, amount
and description that both miss the store are both classified clean. -/
theorem performDuplicateCheck_batch_independent (store : List Transaction)
    (t₁ t₂ : Transaction)
    (hdate : dateOnly t₁.date = dateOnly t₂.date)
    (hamt : t₁.amount = t₂.amount)
    (hdesc : t₁.description = t₂.description)
    (hclean : isDuplicate store t₁ = false) :
    performDuplicateCheck store [t₁, t₂] = ([t₁, t₂], []) := by
  have h2 : isDuplicate store t₂ = false := by
    rw [← hclean]
    simp only [isDuplicate, ← hdate, ← hamt, ← hdesc]
  simp [performDuplicateCheck, List.filter, hclean, h2]

/-- C10 witness: two byte-identical candidates against the empty store
are both kept clean. -/
theorem performDuplicateCheck_batch_independent_witness :
    performDuplicateCheck []
        [mkTxn "a" "2024-02-02" "TWIN" 7 TxType.EXPENSE,
         mkTxn "b" "2024-02-02" "TWIN" 7 TxType.EXPENSE]
      = ([mkTxn "a" "2024-02-02" "TWIN" 7 TxType.EXPENSE,
          mkTxn "b" "2024-02-02" "TWIN" 7 TxType.EXPENSE], []) :=
  performDuplicateCheck_batch_independent []
    (mkTxn "a" "2024-02-02" "TWIN" 7 TxType.EXPENSE)
    (mkTxn "b" "2024-02-02" "TWIN" 7 TxType.EXPENSE)
    rfl rfl rfl (by decide)

/-- The first element after a run of failures is what find? returns. -/
theorem find?_append_first {α : Type} (p : α → Bool) (pre post : List α) (r : α)
    (hpre : ∀ x ∈ pre, p x = false) (hr : p r = true) :
    (pre ++ r :: post).find? p = some r := by
  induction pre with
  | nil => simp [List.find?_cons, hr]
  | cons a as ih =>
    have ha : p a = false := hpre a (by simp)
    simp only [List.cons_append, List.find?_cons, ha]
    exact ih fun x hx => hpre x (by simp [hx])

/-- C5: rule evaluation is first-match-wins and additive only.  For an
uncategorized transaction, if the active rules split as a failing run
followed by a first matching rule whose target category resolves, the
engine assigns exactly that rule targets and the category type; a
transaction whose category id is truthy is returned unchanged; matching
combines the conditions with every under AND and some under OR; and a
nonempty rule list maps the per-transaction body over the store. -/
theorem applyRules_first_match (categories : List Category)
    (rules : List AutoCategoryRule) :
    (∀ (t : Transaction) (pre post : List AutoCategoryRule)
        (r : AutoCategoryRule) (cat : Category),
      t.categoryId = none →
      rules.filter (fun r => r.isActive) = pre ++ r :: post →
      (∀ r' ∈ pre, ruleMatches t r' = false) →
      ruleMatches t r = true →
      categories.find? (fun c => c.id == r.targetCategoryId) = some cat →
      applyRulesTxn categories rules t
        = { t with categoryId := some r.targetCategoryId,
                   subcategoryId := r.targetSubcategoryId,
                   type := cat.type })
  ∧ (∀ (t : Transaction) (cid : String),
      t.categoryId = some cid → cid ≠ "" → applyRulesTxn categories rules t = t)
  ∧ (∀ (t : Transaction) (r : AutoCategoryRule),
      ruleMatches t r = (match r.matchLogic with
        | RuleLogic.AND => r.conditions.all (evalCondition t)
        | RuleLogic.OR => r.conditions.any (evalCondition t)))
  ∧ (∀ txns : List Transaction, rules ≠ [] →
      applyRules categories rules txns = txns.map (applyRulesTxn categories rules)) := by
  refine ⟨?_, ?_, ?_, ?_⟩
  · intro t pre post r cat hnone hsplit hpre hr hcat
    unfold applyRulesTxn
    rw [hnone, hsplit, find?_append_first (fun r => ruleMatches t r) pre post r hpre hr]
    simp [strTruthy, hcat]
  · intro t cid hsome hne
    unfold applyRulesTxn
    rw [hsome]
    simp [strTruthy, hne]
  · intro t r
    rcases r with ⟨rid, rname, logic, conds, tc, ts, act⟩
    cases logic
    · show (conds.map (evalCondition t)).all (fun b => b) = conds.all (evalCondition t)
      induction conds with
      | nil => rfl
      | cons a as ih => simp [List.all_cons, ih]
    · show (conds.map (evalCondition t)).any (fun b => b) = conds.any (evalCondition t)
      induction conds with
      | nil => rfl
      | cons a as ih => simp [List.any_cons, ih]
  · intro txns hne
    cases rules with
    | nil => exact absurd rfl hne
    | cons a l => simp [applyRules]

/-- C5 witness: with a non-matching first rule and a matching second
rule, the engine assigns the second rule targets and the category type to
an uncategorized transaction. -/
theorem applyRules_first_match_witness :
    applyRulesTxn [⟨"c9", "Coffee", TxType.EXPENSE, [], none⟩]
        [⟨"ra", "Streaming", RuleLogic.AND,
            [⟨"k1", RuleField.description, RuleOperator.contains, "netflix"⟩],
            "cN", none, true⟩,
         ⟨"rb", "Coffee shops", RuleLogic.AND,
            [⟨"k2", RuleField.description, RuleOperator.contains, "starbucks"⟩],
            "c9", none, true⟩]
        (mkTxn "t1" "2024-01-02" "STARBUCKS 123" 7 TxType.INCOME)
      = { mkTxn "t1" "2024-01-02" "STARBUCKS 123" 7 TxType.INCOME with
            categoryId := some "c9", subcategoryId := none, type := TxType.EXPENSE } :=
  (applyRules_first_match [⟨"c9", "Coffee", TxType.EXPENSE, [], none⟩]
      [⟨"ra", "Streaming", RuleLogic.AND,
          [⟨"k1", RuleField.description, RuleOperator.contains, "netflix"⟩],
          "cN", none, true⟩,
       ⟨"rb", "Coffee shops", RuleLogic.AND,
          [⟨"k2", RuleField.description, RuleOperator.contains, "starbucks"⟩],
          "c9", none, true⟩]).1
    (mkTxn "t1" "2024-01-02" "STARBUCKS 123" 7 TxType.INCOME)
    [⟨"ra", "Streaming", RuleLogic.AND,
        [⟨"k1", RuleField.description, RuleOperator.contains, "netflix"⟩],
        "cN", none, true⟩]
    []
    ⟨"rb", "Coffee shops", RuleLogic.AND,
        [⟨"k2", RuleField.description, RuleOperator.contains, "starbucks"⟩],
        "c9", none, true⟩
    ⟨"c9", "Coffee", TxType.EXPENSE, [], none⟩
    rfl (by decide) (by decide) (by decide) (by decide)

/-- Condition evaluation reads only the description, account and amount
of a transaction, so rewriting its categorization fields changes
nothing. -/
theorem evalCondition_categorize (t : Transaction) (c : RuleCondition)
    (x y : Option String) (ty : TxType) :
    evalCondition { t with categoryId := x, subcategoryId := y, type := ty } c
      = evalCondition t c := by
  cases t
  rfl

/-- Rule matching is likewise invariant under rewriting the
categorization fields of the transaction. -/
theorem ruleMatches_categorize (t : Transaction) (x y : Option String) (ty : TxType) :
    ruleMatches { t with categoryId := x, subcategoryId := y, type := ty }
      = ruleMatches t := by
  funext r
  unfold ruleMatches
  rw [funext fun c => evalCondition_categorize t c x y ty]

/-- Shape of the per-transaction rule pass when the guard is false and a
first matching active rule is found. -/
theorem applyRulesTxn_found (categories : List Category)
    (rules : List AutoCategoryRule) (t : Transaction) (r : AutoCategoryRule)
    (h : strTruthy t.categoryId = false)
    (hf : (rules.filter fun r => r.isActive).find? (fun r => ruleMatches t r) = some r) :
    applyRulesTxn categories rules t
      = { t with categoryId := some r.targetCategoryId,
                 subcategoryId := r.targetSubcategoryId,
                 type := match categories.find? (fun c => c.id == r.targetCategoryId) with
                         | some cat => cat.type
                         | none => t.type } := by
  simp [applyRulesTxn, h, hf]

/-- One transaction is a fixed point of the per-transaction rule pass
after a first application, whatever the assigned target id looks like. -/
theorem applyRulesTxn_idem (categories : List Category)
    (rules : List AutoCategoryRule) (t : Transaction) :
    applyRulesTxn categories rules (applyRulesTxn categories rules t)
      = applyRulesTxn categories rules t := by
  by_cases h : strTruthy t.categoryId = true
  · simp [applyRulesTxn, h]
  · have h' : strTruthy t.categoryId = false := by
      cases hb : strTruthy t.categoryId
      · rfl
      · exact absurd hb h
    cases hf : (rules.filter fun r => r.isActive).find? (fun r => ruleMatches t r) with
    | none =>
      simp [applyRulesTxn, h', hf]
    | some r =>
      rw [applyRulesTxn_found categories rules t r h' hf]
      by_cases hid : r.targetCategoryId = ""
      · have hT : strTruthy ({ t with
            categoryId := some r.targetCategoryId,
            subcategoryId := r.targetSubcategoryId,
            type := match categories.find? (fun c => c.id == r.targetCategoryId) with
                    | some cat => cat.type
                    | none => t.type } : Transaction).categoryId = false := by
          show strTruthy (some r.targetCategoryId) = false
          simp [strTruthy, hid]
        have hf' : (rules.filter fun r => r.isActive).find?
            (fun r' => ruleMatches { t with
                categoryId := some r.targetCategoryId,
                subcategoryId := r.targetSubcategoryId,
                type := match categories.find? (fun c => c.id == r.targetCategoryId) with
                        | some cat => cat.type
                        | none => t.type } r')
            = some r := by
          rw [funext fun r' =>
            congrFun (ruleMatches_categorize t (some r.targetCategoryId)
              r.targetSubcategoryId _) r']
          exact hf
        rw [applyRulesTxn_found categories rules _ r hT hf']
        cases hcat : categories.find? (fun c => c.id == r.targetCategoryId) with
        | none => simp only [hcat]
        | some cat => simp only [hcat]
      · have hT : strTruthy (some r.targetCategoryId) = true := by
          simp [strTruthy, hid]
        simp [applyRulesTxn, hT]

/-- C9: the rule engine run is idempotent: a second Run Rules pass over
the output of a first pass returns that output unchanged. -/
theorem applyRules_idempotent (categories : List Category)
    (rules : List AutoCategoryRule) (txns : List Transaction) :
    applyRules categories rules (applyRules categories rules txns)
      = applyRules categories rules txns := by
  cases hr : rules.isEmpty with
  | true => simp [applyRules, hr]
  | false =>
    simp only [applyRules, hr, Bool.false_eq_true, if_false, List.map_map]
    exact List.map_congr_left fun t _ => applyRulesTxn_idem categories rules t

/-- A distance accepted by the update guard is within the tolerance. -/
theorem gcmOk_le_three {l : Option ℕ} {d : ℕ} (h : gcmOk l d = true) : d ≤ 3 := by
  simp only [gcmOk, Bool.and_eq_true, decide_eq_true_eq] at h
  exact h.2

/-- Update guard against a finite running lowest, as two inequalities. -/
theorem gcmOk_some_iff {lv d : ℕ} : gcmOk (some lv) d = true ↔ d < lv ∧ d ≤ 3 := by
  simp [gcmOk]

/-- Update guard against the initial infinite lowest. -/
theorem gcmOk_none_iff {d : ℕ} : gcmOk none d = true ↔ d ≤ 3 := by
  simp [gcmOk]

/-- The scanning loop returns none exactly when it started from none and
no entry passes the guard against the initial lowest. -/
theorem gcmLoop_eq_none_iff (tl : String) (es : List (String × String)) :
    ∀ (b : Option String) (l : Option ℕ),
      gcmLoop tl es b l = none ↔
        b = none ∧ ∀ e ∈ es, gcmOk l (gcmDist tl e) = false := by
  induction es with
  | nil =>
    intro b l
    simp [gcmLoop]
  | cons e es ih =>
    intro b l
    simp only [gcmLoop]
    by_cases hok : gcmOk l (gcmDist tl e) = true
    · rw [if_pos hok, ih (some e.1) (some (gcmDist tl e))]
      simp [hok]
    · have hok' : gcmOk l (gcmDist tl e) = false := by
        cases hb : gcmOk l (gcmDist tl e)
        · rfl
        · exact absurd hb hok
      rw [if_neg hok, ih b l]
      simp [hok']

/-- Soundness of the scanning loop: a returned id either is the starting
best with every entry rejected, or belongs to an entry that passes the
guard, beats every earlier passing entry strictly, and is not beaten by
any later entry. -/
theorem gcmLoop_eq_some (tl : String) (es : List (String × String)) :
    ∀ (b : Option String) (l : Option ℕ) (id : String),
      (∀ lv, l = some lv → lv ≤ 3) →
      gcmLoop tl es b l = some id →
      (b = some id ∧ ∀ e ∈ es, gcmOk l (gcmDist tl e) = false)
      ∨ (∃ pre w post, es = pre ++ w :: post ∧ w.1 = id
          ∧ gcmOk l (gcmDist tl w) = true
          ∧ (∀ e' ∈ pre, gcmOk l (gcmDist tl e') = true → gcmDist tl w < gcmDist tl e')
          ∧ (∀ e' ∈ post, gcmDist tl w ≤ gcmDist tl e')) := by
  induction es with
  | nil =>
    intro b l id hl h
    left
    exact ⟨by simpa [gcmLoop] using h, by simp⟩
  | cons e es ih =>
    intro b l id hl h
    simp only [gcmLoop] at h
    by_cases hok : gcmOk l (gcmDist tl e) = true
    · rw [if_pos hok] at h
      have h3 : gcmDist tl e ≤ 3 := gcmOk_le_three hok
      have hl' : ∀ lv, (some (gcmDist tl e) : Option ℕ) = some lv → lv ≤ 3 := by
        intro lv hv
        cases hv
        exact h3
      rcases ih (some e.1) (some (gcmDist tl e)) id hl' h with
        ⟨hb, hall⟩ | ⟨pre, w, post, hsplit, hid, hokw, hpre, hpost⟩
      · right
        refine ⟨[], e, es, by simp, by injection hb, hok, by simp, ?_⟩
        intro e' he'
        have hrej := hall e' he'
        have : ¬(gcmDist tl e' < gcmDist tl e ∧ gcmDist tl e' ≤ 3) := by
          intro hc
          rw [gcmOk_some_iff.mpr hc] at hrej
          exact Bool.true_eq_false.mp hrej
        omega
      · right
        have hw3 : gcmDist tl w ≤ 3 := gcmOk_le_three hokw
        have hwlt : gcmDist tl w < gcmDist tl e := (gcmOk_some_iff.mp hokw).1
        refine ⟨e :: pre, w, post, by simp [hsplit], hid, ?_, ?_, hpost⟩
        · cases l with
          | none => exact gcmOk_none_iff.mpr hw3
          | some lv =>
            have helt : gcmDist tl e < lv := (gcmOk_some_iff.mp hok).1
            exact gcmOk_some_iff.mpr ⟨lt_trans hwlt helt, hw3⟩
        · intro e' he' hok'
          rcases List.mem_cons.mp he' with rfl | hmem
          · exact hwlt
          · by_cases hok'' : gcmOk (some (gcmDist tl e)) (gcmDist tl e') = true
            · exact hpre e' hmem hok''
            · have h'3 : gcmDist tl e' ≤ 3 := gcmOk_le_three hok'
              have : ¬(gcmDist tl e' < gcmDist tl e ∧ gcmDist tl e' ≤ 3) :=
                fun hc => hok'' (gcmOk_some_iff.mpr hc)
              omega
    · rw [if_neg hok] at h
      rcases ih b l id hl h with
        ⟨hb, hall⟩ | ⟨pre, w, post, hsplit, hid, hokw, hpre, hpost⟩
      · left
        refine ⟨hb, ?_⟩
        intro e' he'
        rcases List.mem_cons.mp he' with rfl | hmem
        · exact Bool.not_eq_true _ ▸ Bool.of_not_eq_true hok
        · exact hall e' hmem
      · right
        refine ⟨e :: pre, w, post, by simp [hsplit], hid, hokw, ?_, hpost⟩
        intro e' he' hok'
        rcases List.mem_cons.mp he' with rfl | hmem
        · exact absurd hok' hok
        · exact hpre e' hmem hok'

set_option maxRecDepth 8000 in
/-- C7: getClosestMatch returns none exactly when every catalog entry is
farther than the tolerance 3 from the lowercased label, and whenever it
returns an id, that id belongs to an entry within tolerance whose
distance is strictly below every earlier entry and at most every later
entry, so the result is the first entry attaining the minimum distance;
the label Amazn resolves to the entry named Amazon, and a label far from
every entry stays unresolved. -/
theorem getClosestMatch_spec (term : String) (cats : List Category) :
    (getClosestMatch term cats = none ↔
      ∀ e ∈ scanEntries cats, 3 < gcmDist (jsToLower term) e)
  ∧ (∀ id, getClosestMatch term cats = some id →
      ∃ pre w post, scanEntries cats = pre ++ w :: post ∧ w.1 = id
        ∧ gcmDist (jsToLower term) w ≤ 3
        ∧ (∀ e' ∈ pre, gcmDist (jsToLower term) w < gcmDist (jsToLower term) e')
        ∧ (∀ e' ∈ post, gcmDist (jsToLower term) w ≤ gcmDist (jsToLower term) e'))
  ∧ getClosestMatch "Amazn"
      [⟨"c-shop", "Shopping", TxType.EXPENSE, [⟨"s-amazon", "Amazon"⟩], none⟩]
      = some "s-amazon"
  ∧ getClosestMatch "Completely Different Name"
      [⟨"c-shop", "Shopping", TxType.EXPENSE, [⟨"s-amazon", "Amazon"⟩], none⟩]
      = none := by
  refine ⟨?_, ?_, by decide, by decide⟩
  · rw [getClosestMatch, gcmLoop_eq_none_iff]
    simp only [true_and]
    constructor
    · intro hall e he
      have := hall e he
      have hne : ¬ gcmDist (jsToLower term) e ≤ 3 := by
        intro hle
        rw [gcmOk_none_iff.mpr hle] at this
        exact Bool.true_eq_false.mp this
      omega
    · intro hall e he
      cases hb : gcmOk none (gcmDist (jsToLower term) e) with
      | false => rfl
      | true =>
        have := gcmOk_le_three hb
        have := hall e he
        omega
  · intro id h
    rw [getClosestMatch] at h
    rcases gcmLoop_eq_some (jsToLower term) (scanEntries cats) none none id
        (by intro lv hv; cases hv) h with
      ⟨hb, -⟩ | ⟨pre, w, post, hsplit, hid, hokw, hpre, hpost⟩
    · exact absurd hb (by simp)
    · have hw3 : gcmDist (jsToLower term) w ≤ 3 := gcmOk_le_three hokw
      refine ⟨pre, w, post, hsplit, hid, hw3, ?_, hpost⟩
      intro e' he'
      by_cases h'3 : gcmDist (jsToLower term) e' ≤ 3
      · exact hpre e' he' (gcmOk_none_iff.mpr h'3)
      · omega

set_option maxRecDepth 8000 in
/-- C7 witness: a label far from both catalog names is reported
unresolved through the characterization. -/
theorem getClosestMatch_spec_witness :
    getClosestMatch "Completely Different Name"
      [⟨"c-shop", "Shopping", TxType.EXPENSE, [⟨"s-amazon", "Amazon"⟩], none⟩]
      = none :=
  (getClosestMatch_spec "Completely Different Name"
    [⟨"c-shop", "Shopping", TxType.EXPENSE, [⟨"s-amazon", "Amazon"⟩], none⟩]).1.mpr
    (by decide)

end BizExpense
